import Mathlib

/-!
Verification of the png-embed PNG chunk codec.

Shallow embedding of src/embed.go (package pngembed).  Byte sequences are
modelled as `List Nat` (each element a byte value 0..255), Go strings as
Lean `String` when used as chunk-type tags and as `List Nat` (their UTF-8
bytes) when used as keyword/payload data.  Go `uint32` arithmetic is
modelled as `Nat` with explicit reduction modulo 4294967296 (2^32) where
the Go code performs 32-bit operations.  A Go function returning
`(T, error)` is modelled as `Except Err T`; a runtime panic is a distinct
`Err` constructor.  The external chunk-stream reader (github.com/sabhiram/pngr)
is not part of this repository and is modelled from the spec.
-/

/-- Errors surfaced by the Go code: returned error values
(`errors.New` / `fmt.Errorf`), the structured invalid-chunk-type error,
and runtime panics (out-of-range indexing / slicing). -/
inductive Err where
  | goError (msg : String)
  | invalidChunkType (ct : String)
  | runtimePanic (msg : String)
deriving DecidableEq, Repr

/-- Result of a Go function that returns a (possibly nil) value together
with a (possibly nil) error, or aborts in a runtime panic.
`ret none (some e)` is Go `return nil, err`; `ret (some x) none` is a
clean `return x, nil`; `ret (some x) (some e)` is `return x, err`. -/
inductive GoRet (α : Type) where
  | ret : Option α → Option Err → GoRet α
  | panicked : Err → GoRet α
deriving DecidableEq, Repr

/-- Model of `var pngMagic = []byte{137, 80, 78, 71, 13, 10, 26, 10}` -/
def pngMagic : List Nat := [137, 80, 78, 71, 13, 10, 26, 10]

/-- Go `[]byte(s)` for the ASCII strings used as chunk-type tags
(UTF-8 of an ASCII string is the list of character codes). -/
def strBytes (s : String) : List Nat := s.data.map Char.toNat

/-- Model of `binary.BigEndian.PutUint32`: the 4 big-endian bytes of a `uint32`.
Since each byte is extracted with division/remainder by powers of 256
(16777216 = 256^3, 65536 = 256^2), the encoding of `n` coincides with the
encoding of `n % 4294967296`, matching Go's `uint32(...)` truncation. -/
def be32 (n : Nat) : List Nat :=
  [n / 16777216 % 256, n / 65536 % 256, n / 256 % 256, n % 256]

/-- Model of `binary.BigEndian.Uint32`: reads the first 4 bytes big-endian; Go
panics (index out of range) when fewer than 4 bytes are present, hence
the `Option`. -/
def beUint32 : List Nat → Option Nat
  | a :: b :: c :: d :: _ => some (a * 16777216 + b * 65536 + c * 256 + d)
  | _ => none

/-- One round of the reflected CRC-32 bit loop: shift right, conditionally
xor with the reversed IEEE polynomial 0xEDB88320. -/
def crc32Round (c : Nat) : Nat :=
  if c % 2 = 1 then (c / 2) ^^^ 0xEDB88320 else c / 2

/-- Fold one byte into a running CRC-32 state (8 bit rounds). -/
def crc32Byte (c b : Nat) : Nat :=
  crc32Round (crc32Round (crc32Round (crc32Round
    (crc32Round (crc32Round (crc32Round (crc32Round (c ^^^ (b % 256)))))))))

/-- Model of `crc32.ChecksumIEEE`: standard CRC-32/IEEE over a byte sequence. -/
def crc32 (data : List Nat) : Nat :=
  (data.foldl crc32Byte 0xFFFFFFFF) ^^^ 0xFFFFFFFF

/-- Model of `errIfNotSubStr(s, sub)`: nil when `len(sub) <= len(s)` and the loop
`for i, d := range sub { if d != s[i] ... }` finds no mismatch, i.e. when
`sub` is a pointwise prefix of `s`. -/
def errIfNotSubStr (s sub : List Nat) : Option Err :=
  if sub.length > s.length then some (Err.goError "substring larger than parent")
  else if sub.isPrefixOf s then none
  else some (Err.goError "byte mismatch with sub")

/-- The fixed whitelist iterated by `isValidChunkType`. -/
def chunkWhitelist : List String :=
  ["IHDR", "PLTE", "IDAT", "IEND",
   "bKGD", "cHRM", "dSIG", "eXIf", "gAMA", "hIST", "iCCP", "iTXt", "pHYs",
   "sBIT", "sPLT", "sRGB", "sTER", "tEXt", "tIME", "tRNS", "zTXt"]

/-- Model of `isValidChunkType(ct)`: linear scan of the whitelist for an equal tag. -/
def isValidChunkType (ct : String) : Bool := chunkWhitelist.contains ct

/-- Model of `buildChunk(ct, data)`: rejects non-whitelisted types, otherwise emits
`length(4, big-endian uint32) ++ type(4) ++ data ++ crc32(type ++ data)(4)`. -/
def buildChunk (ct : String) (data : List Nat) : Except Err (List Nat) :=
  if isValidChunkType ct then
    .ok (be32 data.length ++ (strBytes ct ++ data) ++ be32 (crc32 (strBytes ct ++ data)))
  else
    .error (Err.invalidChunkType ct)

/-- Model of `embed(data, chunk)`: `buf.Next(n)` on a `bytes.Buffer` yields the next
`min n remaining` bytes, modelled by `take`/`drop`.  The copied byte count
for the first chunk is `int(sz + 8)` where `sz` is a `uint32`, so the
addition wraps modulo 4294967296.  `binary.BigEndian.Uint32` on fewer than
4 bytes is a runtime panic. -/
def embed (data chunk : List Nat) : Except Err (List Nat) :=
  let d1 := data.take 8
  match errIfNotSubStr pngMagic d1 with
  | some e => .error e
  | none =>
    let d2 := (data.drop 8).take 4
    match beUint32 d2 with
    | none => .error (Err.runtimePanic "index out of range")
    | some sz =>
      let n := (sz + 8) % 4294967296
      .ok (d1 ++ d2 ++ ((data.drop 8).drop 4).take n ++ chunk
             ++ ((data.drop 8).drop 4).drop n)

/-- Model of `formatTEXTChunk(text, keyword)`: `keyword ++ NUL ++ text`. -/
def formatTEXTChunk (text keyword : List Nat) : List Nat :=
  (keyword ++ [0]) ++ text

/-- Model of `formatITXTChunk`: `keyword ++ NUL ++ byte(flag) ++ byte(method) ++
languageTag ++ NUL ++ translatedKeyword ++ NUL ++ text`.  Go `byte(int)`
truncates modulo 256. -/
def formatITXTChunk (text keyword : List Nat) (cflag cmethod : Nat)
    (ltag tkw : List Nat) : List Nat :=
  (keyword ++ [0]) ++ [cflag % 256] ++ [cmethod % 256] ++ (ltag ++ [0])
    ++ (tkw ++ [0]) ++ text

/-- Big-endian decimal digit codes of a natural number, at least one digit:
the meaning of the integer branch of `fmt.Sprintf` with verb d. -/
def decDigits (n : Nat) : List Nat :=
  if n < 10 then [48 + n] else decDigits (n / 10) ++ [48 + n % 10]

/-- The six zero-padded fraction digit codes of `m` (for `m < 1000000`):
the fraction part of `fmt.Sprintf` with verb f. -/
def frac6 (m : Nat) : List Nat :=
  [48 + m / 100000 % 10, 48 + m / 10000 % 10, 48 + m / 1000 % 10,
   48 + m / 100 % 10, 48 + m / 10 % 10, 48 + m % 10]

/-- Round-half-to-even of a nonnegative rational to an integer, the
rounding Go's float formatter applies to the exact value of a float. -/
def roundHalfEven (q : ℚ) : ℤ :=
  let f := ⌊q⌋
  if q - f < 1/2 then f
  else if q - f > 1/2 then f + 1
  else if f % 2 = 0 then f else f + 1

/-- Model of `fmt.Sprintf` with verb f on a float value: optional minus sign,
decimal integer part, a dot, then exactly six fraction digits, obtained by
rounding the exact value times 10^6.  A finite IEEE-754 double is the
rational `m * 2^e`; the model takes that exact rational (non-finite
values NaN and infinity are outside the model). -/
def formatFloat (q : ℚ) : List Nat :=
  let n := (roundHalfEven (|q| * 1000000)).toNat
  (if q < 0 then [45] else []) ++ decDigits (n / 1000000) ++ [46]
    ++ frac6 (n % 1000000)

/-- The dynamic value passed to `to_bytes` as `interface{}`: the type
switch covers `int, uint`, `float32, float64` and `string`; any other
value falls to an external JSON serializer, which is outside the model
(no claim exercises it). A float is represented by its exact rational
value; a string by its UTF-8 bytes. -/
inductive GoValue where
  | intVal (i : ℤ)
  | uintVal (n : Nat)
  | floatVal (q : ℚ)
  | strVal (s : List Nat)
deriving DecidableEq

/-- Model of `to_bytes(v)`: decimal text for integers (verb d: minus sign then
digits for negatives), fixed-point text for floats (verb f), raw bytes
for strings. -/
def to_bytes : GoValue → List Nat
  | .intVal i => (if i < 0 then [45] else []) ++ decDigits i.natAbs
  | .uintVal n => decDigits n
  | .floatVal q => formatFloat q
  | .strVal s => s

/-- Model of `pngChunk, _ := buildChunk(...)`: the error result is discarded; on
the error path the returned slice is Go `nil`, i.e. the empty sequence. -/
def goDiscard : Except Err (List Nat) → List Nat
  | .ok bs => bs
  | .error _ => []

/-- Model of `EmbedTEXT(data, k, v)`: encode the value, frame the tEXt payload,
build the chunk (error discarded) and splice it.  `k` is the UTF-8 byte
sequence of the Go keyword string. -/
def embedTEXT (data k : List Nat) (v : GoValue) : Except Err (List Nat) :=
  embed data (goDiscard (buildChunk "tEXt" (formatTEXTChunk (to_bytes v) k)))

/-- Model of `EmbedITXT(data, k, v)`: compression flag 0, compression method 0,
empty language tag and translated keyword. -/
def embedITXT (data k : List Nat) (v : GoValue) : Except Err (List Nat) :=
  embed data (goDiscard (buildChunk "iTXt"
    (formatITXTChunk (to_bytes v) k 0 0 [] [])))

/-- A chunk yielded by the chunk-stream reader: its 4-byte type tag and
its data bytes. -/
structure RChunk where
  ctype : List Nat
  cdata : List Nat
deriving DecidableEq, Repr

/-- Byte tag of the tEXt chunk type. -/
def tEXtBytes : List Nat := strBytes "tEXt"

/-- Byte tag of the iTXt chunk type. -/
def iTXtBytes : List Nat := strBytes "iTXt"

/-- Modelled from the spec: the chunk iteration of the external
ChunkStreamReader (github.com/sabhiram/pngr), whose source is not part of
this repository.  Per the spec it walks the stream after the magic
chunk-by-chunk — 4-byte big-endian length, 4-byte type, `length` data
bytes, 4-byte CRC — yields the `(type, data)` pairs whose type is in the
requested filter, treats exact exhaustion as end-of-stream, and surfaces
a parse failure (bytes run out mid-chunk) distinctly from end-of-stream.
Returns the chunks yielded before termination and the terminal error, if
any (`none` = clean end-of-stream). -/
def readChunks (f : List (List Nat)) (bs : List Nat) : List RChunk × Option Err :=
  if h0 : bs = [] then ([], none)
  else if bs.length < 12 then ([], some (Err.goError "unexpected EOF"))
  else
    let L := (beUint32 (bs.take 4)).getD 0
    if bs.length < 12 + L then ([], some (Err.goError "truncated chunk"))
    else
      let t := (bs.drop 4).take 4
      let d := (bs.drop 8).take L
      let res := readChunks f (bs.drop (12 + L))
      if t ∈ f then (⟨t, d⟩ :: res.1, res.2) else res
termination_by bs.length
decreasing_by
  have : 0 < bs.length := List.length_pos.mpr h0
  simp only [List.length_drop]
  omega

/-- The key-value mapping built by the extractors: Go map from keyword
bytes to value bytes; inserting overwrites any previous binding. -/
abbrev KV := List (List Nat × List Nat)

/-- Go map assignment: bind `k` to `v`, replacing an existing binding. -/
def mapInsert (m : KV) (k v : List Nat) : KV :=
  (k, v) :: m.filter (fun p => p.1 != k)

/-- Go map lookup. -/
def mapLookup (m : KV) (k : List Nat) : Option (List Nat) :=
  (m.find? (fun p => p.1 == k)).map Prod.snd

/-- Model of `strings.Index(string(data), string(0))`: byte index of the first null
byte, or -1 when there is none. -/
def indexOfNull : List Nat → Int
  | [] => -1
  | b :: rest =>
    if b = 0 then 0
    else
      let r := indexOfNull rest
      if r = -1 then -1 else r + 1

/-- The body of the `ExtractTEXT` loop on one tEXt chunk payload:
`sz := len(c.Data)`, `pt := strings.Index(...)`; when `pt < sz` the code
slices `c.Data[:pt]` and `c.Data[pt+1:]`.  A Go slice expression with a
negative bound is a runtime panic, which is what `c.Data[:pt]` does when
no null byte was found (`pt = -1 < sz` always holds then). -/
def extractTEXTStep (m : KV) (data : List Nat) : Except Err KV :=
  let sz : Int := data.length
  let pt : Int := indexOfNull data
  if pt < sz then
    if pt < 0 then .error (Err.runtimePanic "slice bounds out of range")
    else .ok (mapInsert m (data.take pt.toNat) (data.drop (pt.toNat + 1)))
  else .ok m

/-- The `for ; err == nil; c, err = r.Next()` loop of `ExtractTEXT` over
the chunks the reader yields, with the reader's terminal condition `te`:
after the loop `io.EOF` is cleared and `(ret, err)` is returned. -/
def textLoop : List RChunk → KV → Option Err → GoRet KV
  | [], m, te => .ret (some m) te
  | c :: cs, m, te =>
    match extractTEXTStep m c.cdata with
    | .ok m2 => textLoop cs m2 te
    | .error e => .panicked e

/-- Model of `ExtractTEXT(data)`: construct the reader (which validates the PNG
signature), then fold the loop body over the yielded tEXt chunks. -/
def extractTEXT (data : List Nat) : GoRet KV :=
  if pngMagic.isPrefixOf data then
    let r := readChunks [tEXtBytes] (data.drop 8)
    textLoop r.1 [] r.2
  else .ret none (some (Err.goError "not a png stream"))

/-- Model of `bufio.Reader.ReadBytes(NULL_SEPERATOR)` on an in-memory reader:
split at the first null byte — the bytes before it and the bytes after
it — or fail with EOF when no null byte remains. -/
def splitAtNull : List Nat → Option (List Nat × List Nat)
  | [] => none
  | b :: rest =>
    if b = 0 then some ([], rest)
    else (splitAtNull rest).map (fun p => (b :: p.1, p.2))

/-- The body of the `ExtractITXT` loop on one iTXt chunk payload:
null-terminated keyword (`readNullTerminated`), `Discard(1)` twice for
the compression flag and method, two null-terminated fields consumed and
dropped (language tag, translated keyword), remaining bytes are the text.
Each field that runs out of bytes before its delimiter is an error. -/
def parseITXT (data : List Nat) : Except Err (List Nat × List Nat) :=
  match splitAtNull data with
  | none => .error (Err.goError "EOF")
  | some (keyword, r1) =>
    if r1.length < 1 then .error (Err.goError "discard compression flag: EOF")
    else if r1.length < 2 then .error (Err.goError "discard compression method: EOF")
    else
      match splitAtNull (r1.drop 2) with
      | none => .error (Err.goError "read language tag: EOF")
      | some (_, r2) =>
        match splitAtNull r2 with
        | none => .error (Err.goError "read translated keyword: EOF")
        | some (_, r3) => .ok (keyword, r3)

/-- The `ExtractITXT` loop: a malformed payload makes the whole call
`return nil, err`; otherwise the keyword is bound to the text. -/
def itxtLoop : List RChunk → KV → Option Err → GoRet KV
  | [], m, te => .ret (some m) te
  | c :: cs, m, te =>
    match parseITXT c.cdata with
    | .ok kt => itxtLoop cs (mapInsert m kt.1 kt.2) te
    | .error e => .ret none (some e)

/-- Model of `ExtractITXT(data)`: construct the reader, then fold the strict
five-field parser over the yielded iTXt chunks. -/
def extractITXT (data : List Nat) : GoRet KV :=
  if pngMagic.isPrefixOf data then
    let r := readChunks [iTXtBytes] (data.drop 8)
    itxtLoop r.1 [] r.2
  else .ret none (some (Err.goError "not a png stream"))

/-- A PNG chunk as laid out in a stream: type tag, data, stored checksum. -/
structure PChunk where
  ctype : List Nat
  cdata : List Nat
  crc : List Nat
deriving DecidableEq, Repr

/-- Stream encoding of a chunk: big-endian length, type, data, checksum. -/
def encodeChunk (c : PChunk) : List Nat :=
  be32 c.cdata.length ++ c.ctype ++ c.cdata ++ c.crc

/-- Stream encoding of a chunk sequence. -/
def encodeChunks (cs : List PChunk) : List Nat :=
  (cs.map encodeChunk).flatten

/-- Structural well-formedness of a chunk: 4-byte type, 4-byte checksum,
data length representable in the 32-bit length field. -/
def wfChunk (c : PChunk) : Prop :=
  c.ctype.length = 4 ∧ c.crc.length = 4 ∧ c.cdata.length < 4294967296

instance (c : PChunk) : Decidable (wfChunk c) := by
  unfold wfChunk
  infer_instance

/-- The well-formed but extreme first chunk of the C1/C4 counterexample
stream: its data is 4294967295 bytes long, so the 32-bit addition
`sz + 8` performed by `embed` wraps around. -/
def hugeChunk : PChunk :=
  ⟨strBytes "IHDR", List.replicate 4294967295 0, [0, 0, 0, 0]⟩

/-- Counterexample stream: magic followed by the single huge chunk. -/
def cexPng : List Nat := pngMagic ++ encodeChunks [hugeChunk]

/-- The tEXt chunk built by `EmbedTEXT` for keyword byte 75 and string
value byte 120. -/
def cexTch : PChunk :=
  ⟨tEXtBytes, [75, 0, 120], be32 (crc32 (tEXtBytes ++ [75, 0, 120]))⟩

/-- A payload that runs out of bytes before one of the required iTXt
delimiters: no null terminator for the keyword, or fewer than the two
compression bytes after it, or no null terminator for the language tag,
or none for the translated keyword. -/
def itxtTruncated (p : List Nat) : Prop :=
  splitAtNull p = none ∨
  (∃ kw r1, splitAtNull p = some (kw, r1) ∧
    (r1.length < 2 ∨ splitAtNull (r1.drop 2) = none ∨
      (∃ lg r2, splitAtNull (r1.drop 2) = some (lg, r2) ∧ splitAtNull r2 = none)))

/-- The value a big-endian list of ASCII decimal digit codes denotes. -/
def decValue (ds : List Nat) : Nat :=
  ds.foldl (fun acc d => acc * 10 + (d - 48)) 0

/-- Payload of the malformed iTXt chunk used to exercise claim C3: keyword
"key", null, compression flag and method bytes, then the bytes of
"langtext" with no null terminator before the end of the payload. -/
def c3payload : List Nat :=
  [107, 101, 121, 0, 0, 0, 108, 97, 110, 103, 116, 101, 120, 116]

/-- A PNG stream whose single chunk is the malformed iTXt chunk. -/
def c3data : List Nat :=
  pngMagic ++ encodeChunks [⟨iTXtBytes, c3payload, [0, 0, 0, 0]⟩]

lemma be32_length (n : Nat) : (be32 n).length = 4 := by
  simp [be32]

lemma beUint32_be32 (n : Nat) (h : n < 4294967296) : beUint32 (be32 n) = some n := by
  simp only [be32, beUint32, Option.some.injEq]
  omega

lemma readChunks_nil (f : List (List Nat)) : readChunks f [] = ([], none) := by
  rw [readChunks]
  simp

lemma readChunks_cons (f : List (List Nat)) (c : PChunk) (rest : List Nat)
    (hwf : wfChunk c) :
    readChunks f (encodeChunk c ++ rest) =
      (if c.ctype ∈ f then
        (⟨c.ctype, c.cdata⟩ :: (readChunks f rest).1, (readChunks f rest).2)
      else readChunks f rest) := by
  obtain ⟨ht, hcrc, hn⟩ := hwf
  have hbs : encodeChunk c ++ rest
      = be32 c.cdata.length ++ (c.ctype ++ (c.cdata ++ (c.crc ++ rest))) := by
    simp [encodeChunk]
  have hlen : (encodeChunk c ++ rest).length = 12 + c.cdata.length + rest.length := by
    rw [hbs]
    simp [be32_length, ht, hcrc]
    omega
  have htake4 : (encodeChunk c ++ rest).take 4 = be32 c.cdata.length := by
    rw [hbs, List.take_left' (be32_length _)]
  have hdrop4 : (encodeChunk c ++ rest).drop 4 = c.ctype ++ (c.cdata ++ (c.crc ++ rest)) := by
    rw [hbs, List.drop_left' (be32_length _)]
  have hdrop8 : (encodeChunk c ++ rest).drop 8 = c.cdata ++ (c.crc ++ rest) := by
    have hre : encodeChunk c ++ rest
        = (be32 c.cdata.length ++ c.ctype) ++ (c.cdata ++ (c.crc ++ rest)) := by
      rw [hbs]; simp
    rw [hre, List.drop_left']
    simp [be32_length, ht]
  have hdropAll : (encodeChunk c ++ rest).drop (12 + c.cdata.length) = rest := by
    have hre : encodeChunk c ++ rest
        = (be32 c.cdata.length ++ (c.ctype ++ (c.cdata ++ c.crc))) ++ rest := by
      rw [hbs]; simp
    rw [hre, List.drop_left']
    simp [be32_length, ht, hcrc]
    omega
  rw [readChunks]
  rw [htake4, beUint32_be32 _ hn]
  have hne : ¬ (encodeChunk c ++ rest = []) := by
    intro hh
    have := congrArg List.length hh
    rw [hlen] at this
    simp at this
  rw [dif_neg hne]
  have h12 : ¬ ((encodeChunk c ++ rest).length < 12) := by omega
  rw [if_neg h12]
  simp only [Option.getD_some]
  have hfit : ¬ ((encodeChunk c ++ rest).length < 12 + c.cdata.length) := by omega
  rw [if_neg hfit, hdrop4, hdrop8, hdropAll]
  rw [List.take_left' ht, List.take_left' rfl]

lemma readChunks_chunks (f : List (List Nat)) (cs : List PChunk)
    (hwf : ∀ c ∈ cs, wfChunk c) :
    readChunks f (encodeChunks cs) =
      ((cs.filter (fun c => c.ctype ∈ f)).map (fun c => RChunk.mk c.ctype c.cdata),
       none) := by
  induction cs with
  | nil => simp [encodeChunks, readChunks_nil]
  | cons c cs ih =>
    have hc : wfChunk c := hwf c (by simp)
    have hcs : ∀ x ∈ cs, wfChunk x := fun x hx => hwf x (by simp [hx])
    have henc : encodeChunks (c :: cs) = encodeChunk c ++ encodeChunks cs := by
      simp [encodeChunks]
    rw [henc, readChunks_cons f c _ hc, ih hcs]
    by_cases hmem : c.ctype ∈ f
    · simp [hmem]
    · simp [hmem]

lemma indexOfNull_of_not_mem (bs : List Nat) (h : 0 ∉ bs) : indexOfNull bs = -1 := by
  induction bs with
  | nil => rfl
  | cons b rest ih =>
    have hb : b ≠ 0 := fun hb => h (by simp [hb])
    have hr : 0 ∉ rest := fun hr => h (by simp [hr])
    simp [indexOfNull, hb, ih hr]

lemma indexOfNull_append_null (k rest : List Nat) (hk : 0 ∉ k) :
    indexOfNull (k ++ 0 :: rest) = (k.length : Int) := by
  induction k with
  | nil => simp [indexOfNull]
  | cons b t ih =>
    have hb : b ≠ 0 := fun hb => hk (by simp [hb])
    have ht : 0 ∉ t := fun hh => hk (by simp [hh])
    have hge : indexOfNull (t ++ 0 :: rest) = (t.length : Int) := ih ht
    simp only [List.cons_append, indexOfNull, hb, if_false, hge]
    have : ((t.length : Int)) ≠ -1 := by omega
    simp [this]
    omega

lemma extractTEXTStep_sep (m : KV) (k val : List Nat) (hk : 0 ∉ k) :
    extractTEXTStep m (k ++ 0 :: val) = .ok (mapInsert m k val) := by
  have hlen : ((k ++ 0 :: val).length : Int) = (k.length : Int) + 1 + val.length := by
    simp
    omega
  have hidx := indexOfNull_append_null k val hk
  simp only [extractTEXTStep, hidx, hlen]
  have hlt : (k.length : Int) < (k.length : Int) + 1 + val.length := by omega
  rw [if_pos hlt]
  have hnneg : ¬ ((k.length : Int) < 0) := by omega
  rw [if_neg hnneg]
  have htn : ((k.length : Int)).toNat = k.length := by omega
  rw [htn]
  have htake : (k ++ 0 :: val).take k.length = k := List.take_left' rfl
  have hdrop : (k ++ 0 :: val).drop (k.length + 1) = val := by
    have hre : k ++ 0 :: val = (k ++ [0]) ++ val := by simp
    rw [hre, List.drop_left']
    simp
  rw [htake, hdrop]

lemma extractTEXTStep_no_null (m : KV) (data : List Nat) (h : 0 ∉ data) :
    extractTEXTStep m data = .error (Err.runtimePanic "slice bounds out of range") := by
  have hidx := indexOfNull_of_not_mem data h
  simp only [extractTEXTStep, hidx]
  have h1 : (-1 : Int) < (data.length : Int) := by omega
  rw [if_pos h1, if_pos (by omega)]

lemma splitAtNull_of_not_mem (bs : List Nat) (h : 0 ∉ bs) : splitAtNull bs = none := by
  induction bs with
  | nil => rfl
  | cons b rest ih =>
    have hb : b ≠ 0 := fun hb => h (by simp [hb])
    have hr : 0 ∉ rest := fun hr => h (by simp [hr])
    simp [splitAtNull, hb, ih hr]

lemma splitAtNull_append_null (k rest : List Nat) (hk : 0 ∉ k) :
    splitAtNull (k ++ 0 :: rest) = some (k, rest) := by
  induction k with
  | nil => simp [splitAtNull]
  | cons b t ih =>
    have hb : b ≠ 0 := fun hb => hk (by simp [hb])
    have ht : 0 ∉ t := fun hh => hk (by simp [hh])
    simp [splitAtNull, hb, ih ht]

lemma parseITXT_framed (k val : List Nat) (hk : 0 ∉ k) :
    parseITXT (k ++ 0 :: 0 :: 0 :: 0 :: 0 :: val) = .ok (k, val) := by
  have h1 : splitAtNull (k ++ 0 :: 0 :: 0 :: 0 :: 0 :: val)
      = some (k, 0 :: 0 :: 0 :: 0 :: val) := splitAtNull_append_null k _ hk
  have h5 : splitAtNull (0 :: 0 :: val) = some ([], 0 :: val) := by simp [splitAtNull]
  have h6 : splitAtNull (0 :: val) = some ([], val) := by simp [splitAtNull]
  have h4 : (0 :: 0 :: 0 :: 0 :: val).drop 2 = 0 :: 0 :: val := rfl
  simp only [parseITXT, h1, h4, h5, h6, List.length_cons]
  norm_num

lemma mapLookup_insert_self (m : KV) (k v : List Nat) :
    mapLookup (mapInsert m k v) k = some v := by
  simp [mapInsert, mapLookup, List.find?_cons_of_pos]

lemma pngMagic_isPrefixOf_append (x : List Nat) :
    pngMagic.isPrefixOf (pngMagic ++ x) = true := by
  rw [List.isPrefixOf_iff_prefix]
  exact List.prefix_append _ _

lemma embed_first_chunk (c0 : PChunk) (after chunk : List Nat)
    (hwf : wfChunk c0) (hsz : c0.cdata.length + 8 < 4294967296) :
    embed (pngMagic ++ (encodeChunk c0 ++ after)) chunk
      = .ok (pngMagic ++ (encodeChunk c0 ++ (chunk ++ after))) := by
  obtain ⟨ht, hcrc, hn⟩ := hwf
  have hmag : pngMagic.length = 8 := by decide
  have htake8 : (pngMagic ++ (encodeChunk c0 ++ after)).take 8 = pngMagic :=
    List.take_left' hmag
  have hdrop8 : (pngMagic ++ (encodeChunk c0 ++ after)).drop 8 = encodeChunk c0 ++ after :=
    List.drop_left' hmag
  have hself : errIfNotSubStr pngMagic pngMagic = none := by decide
  have hbs : encodeChunk c0 ++ after
      = be32 c0.cdata.length ++ (c0.ctype ++ (c0.cdata ++ (c0.crc ++ after))) := by
    simp [encodeChunk]
  have hmod : (c0.cdata.length + 8) % 4294967296 = c0.cdata.length + 8 :=
    Nat.mod_eq_of_lt hsz
  simp only [embed, htake8, hself, hdrop8]
  rw [hbs]
  simp only [List.take_left' (be32_length _), List.drop_left' (be32_length _),
    beUint32_be32 _ hn, hmod]
  have hre : c0.ctype ++ (c0.cdata ++ (c0.crc ++ after))
      = (c0.ctype ++ (c0.cdata ++ c0.crc)) ++ after := by simp
  have hplen : (c0.ctype ++ (c0.cdata ++ c0.crc)).length = c0.cdata.length + 8 := by
    simp [ht, hcrc]
    omega
  rw [hre, List.take_left' hplen, List.drop_left' hplen]
  simp [encodeChunk]

lemma embedTEXT_eq (data k : List Nat) (v : GoValue) :
    embedTEXT data k v
      = embed data (encodeChunk ⟨tEXtBytes, formatTEXTChunk (to_bytes v) k,
          be32 (crc32 (tEXtBytes ++ formatTEXTChunk (to_bytes v) k))⟩) := by
  have hvalid : isValidChunkType "tEXt" = true := by decide
  simp [embedTEXT, buildChunk, hvalid, goDiscard, encodeChunk, tEXtBytes]

lemma embedITXT_eq (data k : List Nat) (v : GoValue) :
    embedITXT data k v
      = embed data (encodeChunk ⟨iTXtBytes, formatITXTChunk (to_bytes v) k 0 0 [] [],
          be32 (crc32 (iTXtBytes ++ formatITXTChunk (to_bytes v) k 0 0 [] []))⟩) := by
  have hvalid : isValidChunkType "iTXt" = true := by decide
  simp [embedITXT, buildChunk, hvalid, goDiscard, encodeChunk, iTXtBytes]

lemma formatTEXTChunk_eq (text keyword : List Nat) :
    formatTEXTChunk text keyword = keyword ++ 0 :: text := by
  simp [formatTEXTChunk]

lemma formatITXTChunk_eq (text keyword : List Nat) :
    formatITXTChunk text keyword 0 0 [] []
      = keyword ++ 0 :: 0 :: 0 :: 0 :: 0 :: text := by
  simp [formatITXTChunk]

lemma tEXtBytes_length : tEXtBytes.length = 4 := by decide

lemma iTXtBytes_length : iTXtBytes.length = 4 := by decide

lemma extract_stream_chunks (filter : List (List Nat)) (cs : List PChunk)
    (hwf : ∀ c ∈ cs, wfChunk c) :
    readChunks filter ((pngMagic ++ encodeChunks cs).drop 8)
      = ((cs.filter (fun c => c.ctype ∈ filter)).map
          (fun c => RChunk.mk c.ctype c.cdata), none) := by
  have hmag : pngMagic.length = 8 := by decide
  rw [List.drop_left' hmag, readChunks_chunks filter cs hwf]

lemma roundtrip_text (c0 : PChunk) (cs : List PChunk) (k : List Nat) (v : GoValue)
    (hwf0 : wfChunk c0) (hwfs : ∀ c ∈ cs, wfChunk c)
    (hsz0 : c0.cdata.length + 8 < 4294967296)
    (hT0 : c0.ctype ≠ tEXtBytes) (hTs : ∀ c ∈ cs, c.ctype ≠ tEXtBytes)
    (hk0 : 0 ∉ k)
    (hvsz : k.length + 5 + (to_bytes v).length < 4294967296) :
    ∃ outT mT,
      embedTEXT (pngMagic ++ encodeChunks (c0 :: cs)) k v = .ok outT ∧
      extractTEXT outT = .ret (some mT) none ∧
      mapLookup mT k = some (to_bytes v) := by
  have hmag : pngMagic.length = 8 := by decide
  set val := to_bytes v with hval
  set pT := formatTEXTChunk val k with hpTdef
  have hpTlen : pT.length = k.length + 1 + val.length := by
    simp [hpTdef, formatTEXTChunk]
    omega
  set tch : PChunk := ⟨tEXtBytes, pT, be32 (crc32 (tEXtBytes ++ pT))⟩ with htch
  have hwfT : wfChunk tch := by
    refine ⟨tEXtBytes_length, be32_length _, ?_⟩
    simp only [htch]
    omega
  have hconsEnc : encodeChunks (c0 :: cs) = encodeChunk c0 ++ encodeChunks cs := by
    simp [encodeChunks]
  have hembedT : embedTEXT (pngMagic ++ encodeChunks (c0 :: cs)) k v
      = .ok (pngMagic ++ encodeChunks (c0 :: tch :: cs)) := by
    rw [embedTEXT_eq, hconsEnc]
    rw [embed_first_chunk c0 (encodeChunks cs) (encodeChunk tch) hwf0 hsz0]
    simp [encodeChunks]
  refine ⟨pngMagic ++ encodeChunks (c0 :: tch :: cs), mapInsert [] k val,
    hembedT, ?_, mapLookup_insert_self [] k val⟩
  have hwfAll : ∀ c ∈ (c0 :: tch :: cs), wfChunk c := by
    intro c hc
    rcases List.mem_cons.mp hc with h | hc2
    · exact h ▸ hwf0
    rcases List.mem_cons.mp hc2 with h | h
    · exact h ▸ hwfT
    · exact hwfs c h
  have hpre : pngMagic.isPrefixOf (pngMagic ++ encodeChunks (c0 :: tch :: cs)) = true :=
    pngMagic_isPrefixOf_append _
  have hfil : (c0 :: tch :: cs).filter (fun c => c.ctype ∈ [tEXtBytes]) = [tch] := by
    simp [List.filter_cons, hT0, List.filter_eq_nil_iff]
    exact fun c hc => hTs c hc
  simp only [extractTEXT, hpre, if_true, extract_stream_chunks _ _ hwfAll, hfil]
  have hpT : pT = k ++ 0 :: val := formatTEXTChunk_eq val k
  simp only [List.map, textLoop, htch]
  rw [hpT, extractTEXTStep_sep [] k val hk0]

lemma roundtrip_itxt (c0 : PChunk) (cs : List PChunk) (k : List Nat) (v : GoValue)
    (hwf0 : wfChunk c0) (hwfs : ∀ c ∈ cs, wfChunk c)
    (hsz0 : c0.cdata.length + 8 < 4294967296)
    (hI0 : c0.ctype ≠ iTXtBytes) (hIs : ∀ c ∈ cs, c.ctype ≠ iTXtBytes)
    (hk0 : 0 ∉ k)
    (hvsz : k.length + 5 + (to_bytes v).length < 4294967296) :
    ∃ outI mI,
      embedITXT (pngMagic ++ encodeChunks (c0 :: cs)) k v = .ok outI ∧
      extractITXT outI = .ret (some mI) none ∧
      mapLookup mI k = some (to_bytes v) := by
  have hmag : pngMagic.length = 8 := by decide
  set val := to_bytes v with hval
  set pI := formatITXTChunk val k 0 0 [] [] with hpIdef
  have hpIlen : pI.length = k.length + 5 + val.length := by
    simp [hpIdef, formatITXTChunk]
    omega
  set ich : PChunk := ⟨iTXtBytes, pI, be32 (crc32 (iTXtBytes ++ pI))⟩ with hich
  have hwfI : wfChunk ich := by
    refine ⟨iTXtBytes_length, be32_length _, ?_⟩
    simp only [hich]
    omega
  have hconsEnc : encodeChunks (c0 :: cs) = encodeChunk c0 ++ encodeChunks cs := by
    simp [encodeChunks]
  have hembedI : embedITXT (pngMagic ++ encodeChunks (c0 :: cs)) k v
      = .ok (pngMagic ++ encodeChunks (c0 :: ich :: cs)) := by
    rw [embedITXT_eq, hconsEnc]
    rw [embed_first_chunk c0 (encodeChunks cs) (encodeChunk ich) hwf0 hsz0]
    simp [encodeChunks]
  refine ⟨pngMagic ++ encodeChunks (c0 :: ich :: cs), mapInsert [] k val,
    hembedI, ?_, mapLookup_insert_self [] k val⟩
  have hwfAll : ∀ c ∈ (c0 :: ich :: cs), wfChunk c := by
    intro c hc
    rcases List.mem_cons.mp hc with h | hc2
    · exact h ▸ hwf0
    rcases List.mem_cons.mp hc2 with h | h
    · exact h ▸ hwfI
    · exact hwfs c h
  have hpre : pngMagic.isPrefixOf (pngMagic ++ encodeChunks (c0 :: ich :: cs)) = true :=
    pngMagic_isPrefixOf_append _
  have hfil : (c0 :: ich :: cs).filter (fun c => c.ctype ∈ [iTXtBytes]) = [ich] := by
    simp [List.filter_cons, hI0, List.filter_eq_nil_iff]
    exact fun c hc => hIs c hc
  simp only [extractITXT, hpre, if_true, extract_stream_chunks _ _ hwfAll, hfil]
  have hpI : pI = k ++ 0 :: 0 :: 0 :: 0 :: 0 :: val := formatITXTChunk_eq val k
  simp only [List.map, itxtLoop, hich]
  rw [hpI, parseITXT_framed k val hk0]

lemma readChunks_step (f : List (List Nat)) (bs : List Nat) (L : Nat)
    (hL : beUint32 (bs.take 4) = some L)
    (hfit : 12 + L ≤ bs.length) :
    readChunks f bs
      = (if (bs.drop 4).take 4 ∈ f
         then (⟨(bs.drop 4).take 4, (bs.drop 8).take L⟩
                 :: (readChunks f (bs.drop (12 + L))).1,
               (readChunks f (bs.drop (12 + L))).2)
         else readChunks f (bs.drop (12 + L))) := by
  have hne : bs ≠ [] := by
    intro h
    rw [h] at hL
    simp [beUint32] at hL
  have hlen : ¬ (bs.length < 12) := by omega
  rw [readChunks, dif_neg hne, if_neg hlen, hL]
  simp only [Option.getD_some]
  rw [if_neg (by omega)]

lemma readChunks_junk (f : List (List Nat)) (bs : List Nat)
    (h0 : bs ≠ []) (h12 : bs.length < 12) :
    readChunks f bs = ([], some (Err.goError "unexpected EOF")) := by
  rw [readChunks, dif_neg h0, if_pos h12]

lemma take_replicate_append (N n a : Nat) (C : List Nat) (h : n ≤ N) :
    (List.replicate N a ++ C).take n = List.replicate n a := by
  rw [List.take_append_eq_append_take, List.take_replicate, List.length_replicate,
    Nat.sub_eq_zero_of_le h, List.take_zero, List.append_nil, Nat.min_eq_left h]

lemma drop_replicate_append (N n a : Nat) (C : List Nat) (h : n ≤ N) :
    (List.replicate N a ++ C).drop n = List.replicate (N - n) a ++ C := by
  rw [List.drop_append_eq_append_drop, List.drop_replicate, List.length_replicate,
    Nat.sub_eq_zero_of_le h, List.drop_zero]

lemma cexPng_eq : cexPng
    = pngMagic ++ ([255, 255, 255, 255] ++ (strBytes "IHDR"
        ++ (List.replicate 4294967295 0 ++ [0, 0, 0, 0]))) := by
  have hbe : be32 ((List.replicate 4294967295 (0 : Nat)).length) = [255, 255, 255, 255] := by
    rw [List.length_replicate]
    decide
  rw [cexPng, encodeChunks, List.map_cons, List.map_nil, List.flatten_cons,
    List.flatten_nil, List.append_nil, encodeChunk]
  simp only [hugeChunk]
  rw [hbe]
  simp only [List.append_assoc]

lemma cex_embed_gen (chunk : List Nat) :
    embed cexPng chunk
      = .ok (pngMagic ++ ([255, 255, 255, 255] ++ ((strBytes "IHDR" ++ List.replicate 3 0)
          ++ (chunk ++ (List.replicate 4294967292 0 ++ [0, 0, 0, 0]))))) := by
  have hmag : pngMagic.length = 8 := by decide
  have hihdr : (strBytes "IHDR").length = 4 := by decide
  rw [cexPng_eq]
  have htake8 : (pngMagic ++ ([255, 255, 255, 255] ++ (strBytes "IHDR"
      ++ (List.replicate 4294967295 0 ++ [0, 0, 0, 0])))).take 8 = pngMagic :=
    List.take_left' hmag
  have hdrop8 : (pngMagic ++ ([255, 255, 255, 255] ++ (strBytes "IHDR"
      ++ (List.replicate 4294967295 0 ++ [0, 0, 0, 0])))).drop 8
      = [255, 255, 255, 255] ++ (strBytes "IHDR"
          ++ (List.replicate 4294967295 0 ++ [0, 0, 0, 0])) :=
    List.drop_left' hmag
  have hself : errIfNotSubStr pngMagic pngMagic = none := by decide
  have htake4 : ([255, 255, 255, 255] ++ (strBytes "IHDR"
      ++ (List.replicate 4294967295 0 ++ [0, 0, 0, 0]))).take 4
      = [255, 255, 255, 255] := List.take_left' rfl
  have hdrop4 : ([255, 255, 255, 255] ++ (strBytes "IHDR"
      ++ (List.replicate 4294967295 0 ++ [0, 0, 0, 0]))).drop 4
      = strBytes "IHDR" ++ (List.replicate 4294967295 0 ++ [0, 0, 0, 0]) :=
    List.drop_left' rfl
  have hbe : beUint32 [255, 255, 255, 255] = some 4294967295 := by decide
  have hmod : (4294967295 + 8) % 4294967296 = 7 := by norm_num
  have htake7 : (strBytes "IHDR" ++ (List.replicate 4294967295 0 ++ [0, 0, 0, 0])).take 7
      = strBytes "IHDR" ++ List.replicate 3 0 := by
    rw [List.take_append_eq_append_take, List.take_of_length_le (by omega), hihdr]
    rw [(show (7 : Nat) - 4 = 3 by norm_num)]
    rw [take_replicate_append 4294967295 3 0 _ (by norm_num)]
  have hdrop7 : (strBytes "IHDR" ++ (List.replicate 4294967295 0 ++ [0, 0, 0, 0])).drop 7
      = List.replicate 4294967292 0 ++ [0, 0, 0, 0] := by
    rw [List.drop_append_eq_append_drop, List.drop_eq_nil_of_le (by omega), hihdr]
    rw [(show (7 : Nat) - 4 = 3 by norm_num)]
    rw [drop_replicate_append 4294967295 3 0 _ (by norm_num), List.nil_append]
  simp only [embed, htake8, hself, hdrop8, htake4, hdrop4, hbe, hmod, htake7, hdrop7]
  simp only [List.append_assoc]

lemma cex_read (f : List (List Nat)) (ch : List Nat) (hch : ch.length = 15)
    (hIH : strBytes "IHDR" ∉ f) (hZ : [0, 0, 0, 0] ∉ f) :
    readChunks f ([255, 255, 255, 255] ++ ((strBytes "IHDR" ++ List.replicate 3 0)
        ++ (ch ++ (List.replicate 4294967292 0 ++ [0, 0, 0, 0]))))
      = ([], some (Err.goError "unexpected EOF")) := by
  have hihdr : (strBytes "IHDR").length = 4 := by decide
  set T := [255, 255, 255, 255] ++ ((strBytes "IHDR" ++ List.replicate 3 0)
      ++ (ch ++ (List.replicate 4294967292 0 ++ [0, 0, 0, 0]))) with hT
  have h4 : ([255, 255, 255, 255] : List Nat).length = 4 := by decide
  have hbeT : beUint32 (T.take 4) = some 4294967295 := by
    rw [hT, List.take_left' h4]
    decide
  have hTlen : T.length = 4294967322 := by
    rw [hT]
    simp only [List.length_append, List.length_replicate, hihdr, hch]
    norm_num
  have hfitT : 12 + 4294967295 ≤ T.length := by
    rw [hTlen]
    norm_num
  have htype1 : (T.drop 4).take 4 = strBytes "IHDR" := by
    rw [hT, List.drop_left' h4]
    rw [List.take_append_eq_append_take, List.take_append_eq_append_take]
    rw [List.take_of_length_le (by omega), hihdr]
    rw [(show (4 : Nat) - 4 = 0 by norm_num), List.take_zero, List.append_nil]
    rw [List.length_append, hihdr, List.length_replicate]
    rw [(show (4 : Nat) - (4 + 3) = 0 by norm_num), List.take_zero, List.append_nil]
  have hrest1 : T.drop (12 + 4294967295) = List.replicate 11 0 ++ [0, 0, 0, 0] := by
    have hT2 : T = ([255, 255, 255, 255] ++ ((strBytes "IHDR" ++ List.replicate 3 0) ++ ch))
        ++ (List.replicate 4294967292 0 ++ [0, 0, 0, 0]) := by
      rw [hT]
      simp only [List.append_assoc]
    have hPlen : ([255, 255, 255, 255]
        ++ ((strBytes "IHDR" ++ List.replicate 3 0) ++ ch)).length = 26 := by
      simp only [List.length_append, List.length_replicate, hihdr, hch]
      norm_num
    rw [hT2, List.drop_append_eq_append_drop, List.drop_eq_nil_of_le (by omega),
      List.nil_append, hPlen]
    rw [(show 12 + 4294967295 - 26 = 4294967281 by norm_num)]
    rw [drop_replicate_append 4294967292 4294967281 0 _ (by norm_num)]
  have hlit : List.replicate 11 (0 : Nat) ++ [0, 0, 0, 0]
      = [0, 0, 0, 0, 0, 0, 0, 0, 0, 0, 0, 0, 0, 0, 0] := by decide
  rw [readChunks_step f T 4294967295 hbeT hfitT, if_neg (htype1 ▸ hIH), hrest1, hlit]
  have hbe2 : beUint32 (([0, 0, 0, 0, 0, 0, 0, 0, 0, 0, 0, 0, 0, 0, 0] : List Nat).take 4)
      = some 0 := by decide
  rw [readChunks_step f _ 0 hbe2 (by decide)]
  have htype2 : ((([0, 0, 0, 0, 0, 0, 0, 0, 0, 0, 0, 0, 0, 0, 0] : List Nat)).drop 4).take 4
      = [0, 0, 0, 0] := by decide
  rw [if_neg (htype2 ▸ hZ)]
  have hdrop12 : (([0, 0, 0, 0, 0, 0, 0, 0, 0, 0, 0, 0, 0, 0, 0] : List Nat)).drop (12 + 0)
      = [0, 0, 0] := by decide
  rw [hdrop12, readChunks_junk f [0, 0, 0] (by decide) (by decide)]

lemma cexTch_len : (encodeChunk cexTch).length = 15 := by
  simp only [encodeChunk, cexTch, List.length_append, be32_length]
  decide

lemma cex_embedTEXT :
    embedTEXT cexPng [75] (GoValue.strVal [120])
      = .ok (pngMagic ++ ([255, 255, 255, 255] ++ ((strBytes "IHDR" ++ List.replicate 3 0)
          ++ (encodeChunk cexTch ++ (List.replicate 4294967292 0 ++ [0, 0, 0, 0]))))) := by
  have hform : formatTEXTChunk (to_bytes (GoValue.strVal [120])) [75] = [75, 0, 120] := by
    decide
  rw [embedTEXT_eq, hform]
  exact cex_embed_gen (encodeChunk cexTch)

lemma cex_extractTEXT :
    extractTEXT (pngMagic ++ ([255, 255, 255, 255] ++ ((strBytes "IHDR" ++ List.replicate 3 0)
        ++ (encodeChunk cexTch ++ (List.replicate 4294967292 0 ++ [0, 0, 0, 0])))))
      = .ret (some []) (some (Err.goError "unexpected EOF")) := by
  have hmag : pngMagic.length = 8 := by decide
  simp only [extractTEXT, pngMagic_isPrefixOf_append, if_true]
  rw [List.drop_left' hmag]
  rw [cex_read [tEXtBytes] (encodeChunk cexTch) cexTch_len (by decide) (by decide)]
  rfl

lemma itxtTruncated_parse_error (p : List Nat) (h : itxtTruncated p) :
    ∃ e, parseITXT p = .error e := by
  rcases h with h1 | ⟨kw, r1, hsp, hrest⟩
  · exact ⟨Err.goError "EOF", by simp [parseITXT, h1]⟩
  · rcases hrest with hlen | h2 | ⟨lg, r2, hsp2, hsp3⟩
    · by_cases h1 : r1.length < 1
      · exact ⟨Err.goError "discard compression flag: EOF", by simp [parseITXT, hsp, h1]⟩
      · exact ⟨Err.goError "discard compression method: EOF",
          by simp [parseITXT, hsp, h1, hlen]⟩
    · have hlen : ¬ (r1.length < 1) ∨ r1.length < 1 := by tauto
      by_cases hl1 : r1.length < 1
      · exact ⟨Err.goError "discard compression flag: EOF", by simp [parseITXT, hsp, hl1]⟩
      · by_cases hl2 : r1.length < 2
        · exact ⟨Err.goError "discard compression method: EOF",
            by simp [parseITXT, hsp, hl1, hl2]⟩
        · exact ⟨Err.goError "read language tag: EOF",
            by simp [parseITXT, hsp, hl1, hl2, h2]⟩
    · by_cases hl1 : r1.length < 1
      · exact ⟨Err.goError "discard compression flag: EOF", by simp [parseITXT, hsp, hl1]⟩
      · by_cases hl2 : r1.length < 2
        · exact ⟨Err.goError "discard compression method: EOF",
            by simp [parseITXT, hsp, hl1, hl2]⟩
        · exact ⟨Err.goError "read translated keyword: EOF",
            by simp [parseITXT, hsp, hl1, hl2, hsp2, hsp3]⟩

lemma itxtLoop_abort (cs : List RChunk) (te : Option Err)
    (h : ∃ c ∈ cs, ∃ e, parseITXT c.cdata = .error e) :
    ∀ m : KV, ∃ e2, itxtLoop cs m te = .ret none (some e2) := by
  induction cs with
  | nil =>
    rcases h with ⟨c, hc, _⟩
    simp at hc
  | cons hd tl ih =>
    intro m
    rcases h with ⟨c, hc, e, he⟩
    rcases List.mem_cons.mp hc with rfl | hmem
    · exact ⟨e, by simp [itxtLoop, he]⟩
    · cases hp : parseITXT hd.cdata with
      | error e2 => exact ⟨e2, by simp [itxtLoop, hp]⟩
      | ok kt =>
        obtain ⟨e2, h2⟩ := ih ⟨c, hmem, e, he⟩ (mapInsert m kt.1 kt.2)
        exact ⟨e2, by simp [itxtLoop, hp, h2]⟩

lemma decDigits_value (n : Nat) : decValue (decDigits n) = n := by
  induction n using Nat.strong_induction_on with
  | _ n ih =>
    by_cases h : n < 10
    · rw [decDigits, if_pos h]
      simp [decValue]
    · rw [decDigits, if_neg h]
      have hstep : decValue (decDigits (n / 10) ++ [48 + n % 10])
          = decValue (decDigits (n / 10)) * 10 + (48 + n % 10 - 48) := by
        simp [decValue, List.foldl_append]
      rw [hstep, ih (n / 10) (by omega)]
      omega

lemma decDigits_ne_nil (n : Nat) : decDigits n ≠ [] := by
  by_cases h : n < 10
  · rw [decDigits, if_pos h]
    simp
  · rw [decDigits, if_neg h]
    simp

lemma decDigits_digits (n : Nat) : ∀ b ∈ decDigits n, 48 ≤ b ∧ b ≤ 57 := by
  induction n using Nat.strong_induction_on with
  | _ n ih =>
    by_cases h : n < 10
    · rw [decDigits, if_pos h]
      intro b hb
      simp at hb
      omega
    · rw [decDigits, if_neg h]
      intro b hb
      rcases List.mem_append.mp hb with hb1 | hb2
      · exact ih (n / 10) (by omega) b hb1
      · simp at hb2
        have : n % 10 < 10 := Nat.mod_lt _ (by omega)
        omega

lemma frac6_length (m : Nat) : (frac6 m).length = 6 := rfl

lemma frac6_digits (m : Nat) : ∀ b ∈ frac6 m, 48 ≤ b ∧ b ≤ 57 := by
  intro b hb
  simp only [frac6, List.mem_cons, List.not_mem_nil, or_false] at hb
  have h1 : m / 100000 % 10 < 10 := Nat.mod_lt _ (by omega)
  have h2 : m / 10000 % 10 < 10 := Nat.mod_lt _ (by omega)
  have h3 : m / 1000 % 10 < 10 := Nat.mod_lt _ (by omega)
  have h4 : m / 100 % 10 < 10 := Nat.mod_lt _ (by omega)
  have h5 : m / 10 % 10 < 10 := Nat.mod_lt _ (by omega)
  have h6 : m % 10 < 10 := Nat.mod_lt _ (by omega)
  rcases hb with rfl | rfl | rfl | rfl | rfl | rfl <;> omega

lemma validChunkType_length (ct : String) (h : isValidChunkType ct = true) :
    (strBytes ct).length = 4 := by
  have hmem : ct ∈ chunkWhitelist := by simpa [isValidChunkType] using h
  fin_cases hmem <;> decide

/-- Claim C2 (code bug): the spec says a tEXt chunk whose payload contains
no null byte is silently skipped; the code instead panics.  On a stream
whose single tEXt chunk has payload [97, 98, 99] (no null byte),
strings.Index returns -1, the guard pt < sz holds since -1 is less than
any length, and the slice expression with negative upper bound -1 is a
runtime panic, so ExtractTEXT neither skips the chunk nor returns a map. -/
theorem c2_no_null_tEXt_panics :
    extractTEXT (pngMagic ++ encodeChunks [⟨tEXtBytes, [97, 98, 99], [0, 0, 0, 0]⟩])
      = .panicked (Err.runtimePanic "slice bounds out of range") := by
  have hwf : ∀ c ∈ [(⟨tEXtBytes, [97, 98, 99], [0, 0, 0, 0]⟩ : PChunk)], wfChunk c := by
    decide
  simp only [extractTEXT, pngMagic_isPrefixOf_append, if_true]
  rw [extract_stream_chunks _ _ hwf]
  decide

/-- Claim C3: whenever the chunk reader yields an iTXt chunk whose payload
is exhausted before one of the three required null delimiters or before
the two single-byte compression fields, ExtractITXT aborts the whole
extraction with an error and returns a nil mapping, even if other chunks
parsed successfully. -/
theorem c3_itxt_malformed_aborts (data : List Nat) (cs : List RChunk)
    (te : Option Err) (c : RChunk)
    (hmagic : pngMagic.isPrefixOf data = true)
    (hread : readChunks [iTXtBytes] (data.drop 8) = (cs, te))
    (hc : c ∈ cs) (hbad : itxtTruncated c.cdata) :
    ∃ e, extractITXT data = .ret none (some e) := by
  obtain ⟨e, he⟩ := itxtTruncated_parse_error c.cdata hbad
  obtain ⟨e2, h2⟩ := itxtLoop_abort cs te ⟨c, hc, e, he⟩ []
  refine ⟨e2, ?_⟩
  unfold extractITXT
  rw [if_pos hmagic, hread]
  exact h2

/-- Witness for claim C3 at a concrete stream: a single iTXt chunk whose
payload has no null terminator after the language tag. -/
theorem c3_itxt_malformed_aborts_witness :
    (pngMagic.isPrefixOf c3data = true ∧
     readChunks [iTXtBytes] (c3data.drop 8) = ([⟨iTXtBytes, c3payload⟩], none) ∧
     (⟨iTXtBytes, c3payload⟩ : RChunk) ∈ [(⟨iTXtBytes, c3payload⟩ : RChunk)] ∧
     itxtTruncated (⟨iTXtBytes, c3payload⟩ : RChunk).cdata) ∧
    (∃ e, extractITXT c3data = .ret none (some e)) := by
  have h1 : pngMagic.isPrefixOf c3data = true := by decide
  have hwf : ∀ c ∈ [(⟨iTXtBytes, c3payload, [0, 0, 0, 0]⟩ : PChunk)], wfChunk c := by decide
  have h2 : readChunks [iTXtBytes] (c3data.drop 8) = ([⟨iTXtBytes, c3payload⟩], none) := by
    show readChunks [iTXtBytes]
        ((pngMagic ++ encodeChunks [⟨iTXtBytes, c3payload, [0, 0, 0, 0]⟩]).drop 8) = _
    rw [extract_stream_chunks _ _ hwf]
    decide
  have h3 : (⟨iTXtBytes, c3payload⟩ : RChunk) ∈ [(⟨iTXtBytes, c3payload⟩ : RChunk)] := by
    decide
  have h4 : itxtTruncated (⟨iTXtBytes, c3payload⟩ : RChunk).cdata :=
    Or.inr ⟨[107, 101, 121], [0, 0, 108, 97, 110, 103, 116, 101, 120, 116], by decide,
      Or.inr (Or.inl (by decide))⟩
  exact ⟨⟨h1, h2, h3, h4⟩, c3_itxt_malformed_aborts c3data _ _ _ h1 h2 h3 h4⟩

/-- Claim C5: any input stream of at least 8 bytes whose first 8 bytes
differ from the canonical PNG magic makes embed (hence EmbedTEXT and
EmbedITXT) fail with the byte-mismatch error; the error return carries no
output bytes. -/
theorem c5_bad_magic_rejected (data chunk : List Nat)
    (hlen : 8 ≤ data.length) (hne : data.take 8 ≠ pngMagic) :
    embed data chunk = .error (Err.goError "byte mismatch with sub") ∧
    (∀ (k : List Nat) (v : GoValue),
      embedTEXT data k v = .error (Err.goError "byte mismatch with sub") ∧
      embedITXT data k v = .error (Err.goError "byte mismatch with sub")) := by
  have hm8 : pngMagic.length = 8 := by decide
  have htl : (data.take 8).length = 8 := by
    rw [List.length_take]
    omega
  have hpre : (data.take 8).isPrefixOf pngMagic = false := by
    cases hb : (data.take 8).isPrefixOf pngMagic
    · rfl
    · exact absurd ((List.isPrefixOf_iff_prefix.mp hb).eq_of_length
        (htl.trans hm8.symm)) hne
  have herr : errIfNotSubStr pngMagic (data.take 8)
      = some (Err.goError "byte mismatch with sub") := by
    simp only [errIfNotSubStr, htl, hm8, hpre]
    norm_num
  have hmain : ∀ ch : List Nat,
      embed data ch = .error (Err.goError "byte mismatch with sub") := by
    intro ch
    simp only [embed, herr]
  exact ⟨hmain chunk, fun k v =>
    ⟨by rw [embedTEXT_eq]; exact hmain _, by rw [embedITXT_eq]; exact hmain _⟩⟩

/-- Witness for claim C5: an all-zero 8-byte stream is rejected. -/
theorem c5_bad_magic_rejected_witness :
    8 ≤ (List.replicate 8 (0 : Nat)).length ∧
    (List.replicate 8 (0 : Nat)).take 8 ≠ pngMagic ∧
    (embed (List.replicate 8 0) [] = .error (Err.goError "byte mismatch with sub") ∧
     (∀ (k : List Nat) (v : GoValue),
       embedTEXT (List.replicate 8 0) k v = .error (Err.goError "byte mismatch with sub") ∧
       embedITXT (List.replicate 8 0) k v
         = .error (Err.goError "byte mismatch with sub"))) :=
  ⟨by decide, by decide, c5_bad_magic_rejected _ _ (by decide) (by decide)⟩

/-- Claim C6: for a whitelisted chunk type, buildChunk returns exactly
the 4-byte big-endian payload length, the type bytes, the payload, and
the big-endian CRC-32/IEEE of type ++ payload; and the last 4 bytes of
the produced chunk equal the CRC-32 recomputed over its type and data
bytes. -/
theorem c6_buildChunk_layout (ct : String) (p : List Nat)
    (h : isValidChunkType ct = true) :
    buildChunk ct p = .ok (be32 p.length ++ (strBytes ct ++ p)
        ++ be32 (crc32 (strBytes ct ++ p)))
    ∧ ∀ out, buildChunk ct p = .ok out →
        out.drop (out.length - 4) = be32 (crc32 ((out.drop 4).take (out.length - 8))) := by
  have hct4 : (strBytes ct).length = 4 := validChunkType_length ct h
  have hbc : buildChunk ct p = .ok (be32 p.length ++ (strBytes ct ++ p)
      ++ be32 (crc32 (strBytes ct ++ p))) := by
    simp [buildChunk, h]
  refine ⟨hbc, ?_⟩
  intro out hout
  rw [hbc] at hout
  injection hout with hEq
  subst hEq
  have hol : (be32 p.length ++ (strBytes ct ++ p)
      ++ be32 (crc32 (strBytes ct ++ p))).length = p.length + 12 := by
    simp only [List.length_append, be32_length, hct4]
    omega
  rw [hol]
  rw [(show p.length + 12 - 4 = p.length + 8 by omega)]
  rw [(show p.length + 12 - 8 = p.length + 4 by omega)]
  have hd : (be32 p.length ++ (strBytes ct ++ p)
      ++ be32 (crc32 (strBytes ct ++ p))).drop (p.length + 8)
      = be32 (crc32 (strBytes ct ++ p)) := by
    exact List.drop_left' (by simp only [List.length_append, be32_length, hct4]; omega)
  have hd4 : (be32 p.length ++ (strBytes ct ++ p)
      ++ be32 (crc32 (strBytes ct ++ p))).drop 4
      = (strBytes ct ++ p) ++ be32 (crc32 (strBytes ct ++ p)) := by
    rw [List.append_assoc]
    exact List.drop_left' (be32_length _)
  rw [hd, hd4, List.take_left' (by simp only [List.length_append, hct4]; omega)]

/-- Witness for claim C6 at chunk type tEXt and payload [1, 2]. -/
theorem c6_buildChunk_layout_witness :
    isValidChunkType "tEXt" = true ∧
    buildChunk "tEXt" [1, 2] = .ok (be32 ([1, 2] : List Nat).length
      ++ (strBytes "tEXt" ++ [1, 2]) ++ be32 (crc32 (strBytes "tEXt" ++ [1, 2]))) :=
  ⟨by decide, (c6_buildChunk_layout "tEXt" [1, 2] (by decide)).1⟩

/-- Claim C7: buildChunk fails with the invalid-chunk-type error (and
produces no bytes) exactly on types outside the fixed whitelist, and
succeeds on every whitelist member. -/
theorem c7_whitelist_enforced (ct : String) (p : List Nat) :
    (ct ∉ chunkWhitelist → buildChunk ct p = .error (Err.invalidChunkType ct)) ∧
    (ct ∈ chunkWhitelist → ∃ bs, buildChunk ct p = .ok bs) := by
  constructor
  · intro h
    have hv : isValidChunkType ct = false := by
      cases hb : isValidChunkType ct
      · rfl
      · exact absurd (by simpa [isValidChunkType] using hb) h
    simp [buildChunk, hv]
  · intro h
    have hv : isValidChunkType ct = true := by
      simp only [isValidChunkType]
      simpa using h
    exact ⟨be32 p.length ++ (strBytes ct ++ p) ++ be32 (crc32 (strBytes ct ++ p)),
      by simp [buildChunk, hv]⟩

/-- Witness for claim C7: the type ABCD is rejected, the type IHDR is
accepted. -/
theorem c7_whitelist_enforced_witness :
    ("ABCD" ∉ chunkWhitelist ∧
      buildChunk "ABCD" [5] = .error (Err.invalidChunkType "ABCD")) ∧
    ("IHDR" ∈ chunkWhitelist ∧ ∃ bs, buildChunk "IHDR" [5] = .ok bs) :=
  ⟨⟨by decide, (c7_whitelist_enforced "ABCD" [5]).1 (by decide)⟩,
   ⟨by decide, (c7_whitelist_enforced "IHDR" [5]).2 (by decide)⟩⟩

/-- Claim C9 (amended): a stream shorter than 8 bytes that is a prefix of
the PNG magic passes the magic-number check (errIfNotSubStr compares only
the bytes actually read against the corresponding prefix of the magic and
returns nil), but embed does not go on to splice: reading the 4-byte
length from the exhausted buffer panics with an index-out-of-range, so no
NotAPngStream error and no spliced output is ever produced. -/
theorem c9_short_prefix_panics (data chunk : List Nat)
    (hlen : data.length < 8) (hpre : data.isPrefixOf pngMagic = true) :
    errIfNotSubStr pngMagic (data.take 8) = none ∧
    embed data chunk = .error (Err.runtimePanic "index out of range") := by
  have hm8 : pngMagic.length = 8 := by decide
  have htake : data.take 8 = data := List.take_of_length_le (by omega)
  have h1 : errIfNotSubStr pngMagic (data.take 8) = none := by
    rw [htake]
    simp only [errIfNotSubStr, hpre]
    rw [if_neg (by simp only [hm8]; omega)]
    simp
  refine ⟨h1, ?_⟩
  have h2 : data.drop 8 = [] := List.drop_eq_nil_of_le (by omega)
  simp only [embed, h1, h2]
  rfl

/-- Witness for claim C9 (amended) at the 2-byte prefix [137, 80]. -/
theorem c9_short_prefix_panics_witness :
    ([137, 80] : List Nat).length < 8 ∧
    ([137, 80] : List Nat).isPrefixOf pngMagic = true ∧
    (errIfNotSubStr pngMagic (([137, 80] : List Nat).take 8) = none ∧
     embed [137, 80] [1] = .error (Err.runtimePanic "index out of range")) :=
  ⟨by decide, by decide, c9_short_prefix_panics [137, 80] [1] (by decide) (by decide)⟩

/-- Counterexample to claim C9 as stated: on the empty stream the magic
check passes, yet embed does not proceed to splice into the truncated
stream — it returns no spliced output at all (it panics reading the
length field). -/
theorem c9_counterexample :
    ([] : List Nat).length < 8 ∧
    List.isPrefixOf ([] : List Nat) pngMagic = true ∧
    errIfNotSubStr pngMagic (([] : List Nat).take 8) = none ∧
    ¬ ∃ out, embed ([] : List Nat) [] = .ok out := by
  refine ⟨by decide, by decide, by decide, ?_⟩
  rintro ⟨out, h⟩
  have he : embed ([] : List Nat) [] = .error (Err.runtimePanic "index out of range") := rfl
  rw [he] at h
  exact Except.noConfusion h

/-- Claim C10: the buildChunk error discarded by EmbedTEXT and EmbedITXT
is always nil, because the literal types tEXt and iTXt are whitelist
members: for every payload buildChunk succeeds and the produced chunk
bytes are never nil. -/
theorem c10_discarded_error_is_nil (p : List Nat) :
    (∃ bs, buildChunk "tEXt" p = .ok bs ∧ bs ≠ []) ∧
    (∃ bs, buildChunk "iTXt" p = .ok bs ∧ bs ≠ []) := by
  have hT : isValidChunkType "tEXt" = true := by decide
  have hI : isValidChunkType "iTXt" = true := by decide
  constructor
  · exact ⟨be32 p.length ++ (strBytes "tEXt" ++ p) ++ be32 (crc32 (strBytes "tEXt" ++ p)),
      by simp [buildChunk, hT], by simp [be32]⟩
  · exact ⟨be32 p.length ++ (strBytes "iTXt" ++ p) ++ be32 (crc32 (strBytes "iTXt" ++ p)),
      by simp [buildChunk, hI], by simp [be32]⟩

/-- Claim C4 (amended): when the stream starts with the magic, the next
4 bytes decode to sz, the stream holds at least sz + 8 further bytes, and
additionally sz + 8 does not overflow the 32-bit addition
(sz + 8 < 4294967296), embed returns exactly magic, length bytes, the
next sz + 8 bytes, the new chunk, and the untouched remainder.  Without
the overflow bound the 32-bit addition performed by the code wraps and
the claim fails (see the counterexample). -/
theorem c4_embed_splice (data chunk : List Nat) (sz : Nat)
    (h8 : data.take 8 = pngMagic)
    (hsz : beUint32 ((data.drop 8).take 4) = some sz)
    (_hlen : sz + 8 ≤ (data.drop 12).length)
    (hov : sz + 8 < 4294967296) :
    embed data chunk = .ok (data.take 8 ++ (data.drop 8).take 4
      ++ (data.drop 12).take (sz + 8) ++ chunk ++ (data.drop 12).drop (sz + 8)) := by
  have hself : errIfNotSubStr pngMagic pngMagic = none := by decide
  have hdd : List.drop 4 (List.drop 8 data) = List.drop 12 data := by
    rw [List.drop_drop]
  simp only [embed, h8, hself, hdd, hsz, Nat.mod_eq_of_lt hov]

/-- Witness for claim C4 (amended) on a 20-byte stream with a zero-length
first chunk. -/
theorem c4_embed_splice_witness :
    ((pngMagic ++ [0, 0, 0, 0, 73, 72, 68, 82, 9, 9, 9, 9]).take 8 = pngMagic ∧
     beUint32 (((pngMagic ++ [0, 0, 0, 0, 73, 72, 68, 82, 9, 9, 9, 9]).drop 8).take 4)
       = some 0 ∧
     0 + 8 ≤ ((pngMagic ++ [0, 0, 0, 0, 73, 72, 68, 82, 9, 9, 9, 9]).drop 12).length ∧
     0 + 8 < 4294967296) ∧
    embed (pngMagic ++ [0, 0, 0, 0, 73, 72, 68, 82, 9, 9, 9, 9]) [7]
      = .ok ((pngMagic ++ [0, 0, 0, 0, 73, 72, 68, 82, 9, 9, 9, 9]).take 8
          ++ ((pngMagic ++ [0, 0, 0, 0, 73, 72, 68, 82, 9, 9, 9, 9]).drop 8).take 4
          ++ ((pngMagic ++ [0, 0, 0, 0, 73, 72, 68, 82, 9, 9, 9, 9]).drop 12).take (0 + 8)
          ++ [7]
          ++ ((pngMagic ++ [0, 0, 0, 0, 73, 72, 68, 82, 9, 9, 9, 9]).drop 12).drop (0 + 8)) :=
  ⟨⟨by decide, by decide, by decide, by decide⟩,
   c4_embed_splice _ [7] 0 (by decide) (by decide) (by decide) (by decide)⟩

/-- Counterexample to claim C4 as stated: on the stream whose first chunk
declares length 4294967295 (all hypotheses of the claim hold, the stream
really contains sz + 8 further bytes), embed does not return the claimed
splice — the 32-bit addition sz + 8 wraps to 7, so only 7 bytes of the
first chunk are copied before the new chunk. -/
theorem c4_counterexample :
    cexPng.take 8 = pngMagic ∧
    beUint32 ((cexPng.drop 8).take 4) = some 4294967295 ∧
    4294967295 + 8 ≤ (cexPng.drop 12).length ∧
    embed cexPng [1] ≠ .ok (cexPng.take 8 ++ (cexPng.drop 8).take 4
      ++ (cexPng.drop 12).take (4294967295 + 8) ++ [1]
      ++ (cexPng.drop 12).drop (4294967295 + 8)) := by
  have hmag : pngMagic.length = 8 := by decide
  have hihdr : (strBytes "IHDR").length = 4 := by decide
  have h4b : ([255, 255, 255, 255] : List Nat).length = 4 := by decide
  have htake8 : cexPng.take 8 = pngMagic := by
    rw [cexPng_eq]
    exact List.take_left' hmag
  have hdrop8 : cexPng.drop 8 = [255, 255, 255, 255] ++ (strBytes "IHDR"
      ++ (List.replicate 4294967295 0 ++ [0, 0, 0, 0])) := by
    rw [cexPng_eq]
    exact List.drop_left' hmag
  have htake4 : (cexPng.drop 8).take 4 = [255, 255, 255, 255] := by
    rw [hdrop8]
    exact List.take_left' h4b
  have hbe : beUint32 ((cexPng.drop 8).take 4) = some 4294967295 := by
    rw [htake4]
    decide
  have hdrop12 : cexPng.drop 12 = strBytes "IHDR"
      ++ (List.replicate 4294967295 0 ++ [0, 0, 0, 0]) := by
    rw [cexPng_eq, ← List.append_assoc]
    exact List.drop_left' (by decide)
  have hL : (strBytes "IHDR" ++ (List.replicate 4294967295 0 ++ [0, 0, 0, 0])).length
      = 4294967303 := by
    simp only [List.length_append, List.length_replicate, hihdr]
    norm_num
  have hlen12 : 4294967295 + 8 ≤ (cexPng.drop 12).length := by
    rw [hdrop12, hL]
  have htakeall : (cexPng.drop 12).take (4294967295 + 8) = strBytes "IHDR"
      ++ (List.replicate 4294967295 0 ++ [0, 0, 0, 0]) := by
    rw [hdrop12]
    exact List.take_of_length_le (by omega)
  have hdropall : (cexPng.drop 12).drop (4294967295 + 8) = [] := by
    rw [hdrop12]
    exact List.drop_eq_nil_of_le (by omega)
  refine ⟨htake8, hbe, hlen12, ?_⟩
  rw [cex_embed_gen [1], htake8, htake4, htakeall, hdropall]
  intro h
  injection h with hl
  have hA : pngMagic ++ ([255, 255, 255, 255] ++ ((strBytes "IHDR" ++ List.replicate 3 0)
        ++ ([1] ++ (List.replicate 4294967292 0 ++ [0, 0, 0, 0]))))
      = (pngMagic ++ ([255, 255, 255, 255] ++ (strBytes "IHDR" ++ List.replicate 3 0)))
        ++ ([1] ++ (List.replicate 4294967292 0 ++ [0, 0, 0, 0])) := by
    simp only [List.append_assoc]
  have hPl : (pngMagic ++ ([255, 255, 255, 255]
      ++ (strBytes "IHDR" ++ List.replicate 3 0))).length = 19 := by decide
  have h19a : (pngMagic ++ ([255, 255, 255, 255] ++ ((strBytes "IHDR" ++ List.replicate 3 0)
      ++ ([1] ++ (List.replicate 4294967292 0 ++ [0, 0, 0, 0])))))[19]? = some 1 := by
    rw [hA, List.getElem?_append_right (by omega), hPl]
    rw [(show (19 : Nat) - 19 = 0 by norm_num)]
    have hc : [1] ++ (List.replicate 4294967292 (0 : Nat) ++ [0, 0, 0, 0])
        = 1 :: (List.replicate 4294967292 0 ++ [0, 0, 0, 0]) := rfl
    rw [hc, List.getElem?_cons_zero]
  have hB : pngMagic ++ [255, 255, 255, 255] ++ (strBytes "IHDR"
        ++ (List.replicate 4294967295 0 ++ [0, 0, 0, 0])) ++ [1] ++ ([] : List Nat)
      = (pngMagic ++ ([255, 255, 255, 255] ++ strBytes "IHDR"))
        ++ (List.replicate 4294967295 0 ++ ([0, 0, 0, 0] ++ [1])) := by
    simp only [List.append_assoc, List.append_nil]
  have hQl : (pngMagic ++ ([255, 255, 255, 255] ++ strBytes "IHDR")).length = 16 := by
    decide
  have h19b : (pngMagic ++ [255, 255, 255, 255] ++ (strBytes "IHDR"
      ++ (List.replicate 4294967295 0 ++ [0, 0, 0, 0])) ++ [1] ++ ([] : List Nat))[19]?
      = some 0 := by
    rw [hB, List.getElem?_append_right (by omega), hQl]
    rw [(show (19 : Nat) - 16 = 3 by norm_num)]
    rw [List.getElem?_append_left (by rw [List.length_replicate]; norm_num)]
    rw [List.getElem?_replicate, if_pos (by norm_num)]
  rw [hl, h19b] at h19a
  simp at h19a

/-- Claim C1 (amended): for a valid PNG stream (magic followed by
well-formed chunks) with no pre-existing tEXt or iTXt chunk, a keyword of
1-79 ASCII bytes with no null byte, and a string/int/float value,
extracting after embedding recovers the encoded value — provided
additionally that the first chunk data length + 8 and the embedded
payload size (keyword + separators + encoded value) stay below 2^32, the
bounds the 32-bit length arithmetic of the code needs.  Without them the
claim fails (see the counterexample). -/
theorem c1_roundtrip (c0 : PChunk) (cs : List PChunk) (k : List Nat) (v : GoValue)
    (hwf0 : wfChunk c0) (hwfs : ∀ c ∈ cs, wfChunk c)
    (hsz0 : c0.cdata.length + 8 < 4294967296)
    (hT0 : c0.ctype ≠ tEXtBytes) (hTs : ∀ c ∈ cs, c.ctype ≠ tEXtBytes)
    (hI0 : c0.ctype ≠ iTXtBytes) (hIs : ∀ c ∈ cs, c.ctype ≠ iTXtBytes)
    (_hk1 : 1 ≤ k.length) (_hk79 : k.length ≤ 79)
    (_hkA : ∀ b ∈ k, b < 128) (hk0 : 0 ∉ k)
    (hvsz : k.length + 5 + (to_bytes v).length < 4294967296) :
    (∃ outT mT,
      embedTEXT (pngMagic ++ encodeChunks (c0 :: cs)) k v = .ok outT ∧
      extractTEXT outT = .ret (some mT) none ∧
      mapLookup mT k = some (to_bytes v)) ∧
    (∃ outI mI,
      embedITXT (pngMagic ++ encodeChunks (c0 :: cs)) k v = .ok outI ∧
      extractITXT outI = .ret (some mI) none ∧
      mapLookup mI k = some (to_bytes v)) :=
  ⟨roundtrip_text c0 cs k v hwf0 hwfs hsz0 hT0 hTs hk0 hvsz,
   roundtrip_itxt c0 cs k v hwf0 hwfs hsz0 hI0 hIs hk0 hvsz⟩

/-- Witness for claim C1 (amended): a PNG with a single empty IHDR chunk,
keyword byte 75, string value byte 104. -/
theorem c1_roundtrip_witness :
    (wfChunk ⟨strBytes "IHDR", [], [0, 0, 0, 0]⟩ ∧
     (⟨strBytes "IHDR", [], [0, 0, 0, 0]⟩ : PChunk).cdata.length + 8 < 4294967296 ∧
     (⟨strBytes "IHDR", [], [0, 0, 0, 0]⟩ : PChunk).ctype ≠ tEXtBytes ∧
     (⟨strBytes "IHDR", [], [0, 0, 0, 0]⟩ : PChunk).ctype ≠ iTXtBytes ∧
     1 ≤ ([75] : List Nat).length ∧ ([75] : List Nat).length ≤ 79 ∧
     (∀ b ∈ ([75] : List Nat), b < 128) ∧ (0 : Nat) ∉ ([75] : List Nat) ∧
     ([75] : List Nat).length + 5 + (to_bytes (GoValue.strVal [104])).length
       < 4294967296) ∧
    ((∃ outT mT,
        embedTEXT (pngMagic ++ encodeChunks [⟨strBytes "IHDR", [], [0, 0, 0, 0]⟩])
          [75] (GoValue.strVal [104]) = .ok outT ∧
        extractTEXT outT = .ret (some mT) none ∧
        mapLookup mT [75] = some (to_bytes (GoValue.strVal [104]))) ∧
     (∃ outI mI,
        embedITXT (pngMagic ++ encodeChunks [⟨strBytes "IHDR", [], [0, 0, 0, 0]⟩])
          [75] (GoValue.strVal [104]) = .ok outI ∧
        extractITXT outI = .ret (some mI) none ∧
        mapLookup mI [75] = some (to_bytes (GoValue.strVal [104])))) :=
  ⟨⟨by decide, by decide, by decide, by decide, by decide, by decide, by decide,
    by decide, by decide⟩,
   c1_roundtrip _ [] [75] (GoValue.strVal [104]) (by decide) (by decide) (by decide)
     (by decide) (by decide) (by decide) (by decide) (by decide) (by decide) (by decide)
     (by decide) (by decide)⟩

/-- Counterexample to claim C1 as stated: the stream whose well-formed
first chunk has data length 4294967295 satisfies every hypothesis of the
claim (magic, well-formed first chunk, no tEXt chunk, valid keyword), yet
embedding keyword 75 with string value 120 and extracting does not
recover the value: the 32-bit addition in embed wraps, the tEXt chunk
lands inside the first chunk data, and extraction returns an empty map
together with a reader error. -/
theorem c1_counterexample :
    wfChunk hugeChunk ∧ hugeChunk.ctype ≠ tEXtBytes ∧ hugeChunk.ctype ≠ iTXtBytes ∧
    1 ≤ ([75] : List Nat).length ∧ ([75] : List Nat).length ≤ 79 ∧
    (∀ b ∈ ([75] : List Nat), b < 128) ∧ (0 : Nat) ∉ ([75] : List Nat) ∧
    ¬ (∃ outT mT, embedTEXT cexPng [75] (GoValue.strVal [120]) = .ok outT ∧
        extractTEXT outT = .ret (some mT) none ∧
        mapLookup mT [75] = some (to_bytes (GoValue.strVal [120]))) := by
  refine ⟨⟨by decide, by decide, ?_⟩, by decide, by decide, by decide, by decide,
    by decide, by decide, ?_⟩
  · simp only [hugeChunk, List.length_replicate]
    norm_num
  · rintro ⟨outT, mT, h1, h2, h3⟩
    rw [cex_embedTEXT] at h1
    injection h1 with hEq
    subst hEq
    rw [cex_extractTEXT] at h2
    injection h2 with ha hb
    exact Option.noConfusion hb

/-- Claim C8: to_bytes renders integers as decimal ASCII digits denoting
the absolute value, with a leading minus sign exactly for negatives and
no other characters; floats as fixed-point text — optional minus sign,
a nonempty run of digits, a single dot, then exactly six digit
characters, never an exponent; strings pass through as raw bytes. -/
theorem c8_to_bytes_format :
    (∀ i : ℤ,
      (i < 0 → to_bytes (.intVal i) = 45 :: decDigits i.natAbs) ∧
      (0 ≤ i → to_bytes (.intVal i) = decDigits i.natAbs) ∧
      decDigits i.natAbs ≠ [] ∧
      (∀ b ∈ decDigits i.natAbs, 48 ≤ b ∧ b ≤ 57) ∧
      decValue (decDigits i.natAbs) = i.natAbs) ∧
    (∀ n : ℕ,
      to_bytes (.uintVal n) = decDigits n ∧ decDigits n ≠ [] ∧
      (∀ b ∈ decDigits n, 48 ≤ b ∧ b ≤ 57) ∧ decValue (decDigits n) = n) ∧
    (∀ q : ℚ, ∃ ip fp,
      to_bytes (.floatVal q) = (if q < 0 then [45] else []) ++ (ip ++ ([46] ++ fp)) ∧
      ip ≠ [] ∧ (∀ b ∈ ip, 48 ≤ b ∧ b ≤ 57) ∧
      fp.length = 6 ∧ (∀ b ∈ fp, 48 ≤ b ∧ b ≤ 57)) ∧
    (∀ s : List Nat, to_bytes (.strVal s) = s) := by
  refine ⟨?_, ?_, ?_, fun s => rfl⟩
  · intro i
    refine ⟨?_, ?_, decDigits_ne_nil _, decDigits_digits _, decDigits_value _⟩
    · intro h
      simp [to_bytes, h]
    · intro h
      have hn : ¬ i < 0 := not_lt.mpr h
      simp [to_bytes, hn]
  · intro n
    exact ⟨rfl, decDigits_ne_nil _, decDigits_digits _, decDigits_value _⟩
  · intro q
    refine ⟨decDigits ((roundHalfEven (|q| * 1000000)).toNat / 1000000),
      frac6 ((roundHalfEven (|q| * 1000000)).toNat % 1000000), ?_,
      decDigits_ne_nil _, decDigits_digits _, frac6_length _, frac6_digits _⟩
    simp only [to_bytes, formatFloat, List.append_assoc]

/-- Witness for claim C8: the negative integer -42 gets a minus sign and
the digits of 42; a two-byte string passes through unmodified. -/
theorem c8_to_bytes_format_witness :
    to_bytes (GoValue.intVal (-42)) = 45 :: decDigits (Int.natAbs (-42)) ∧
    to_bytes (GoValue.strVal [104, 105]) = [104, 105] :=
  ⟨(c8_to_bytes_format.1 (-42)).1 (by decide),
   c8_to_bytes_format.2.2.2 [104, 105]⟩
